import Mathlib

/-!
Verification of `part_3_eng_pos_tags/scripts/utils.py`.

Python strings are modelled as lists of characters (`Str`), Python lists as
Lean lists, and spacy documents as a record of tokens and entity spans.
The three functions of the module, `load_data_split`, `tag_all` and
`penntreebank2universal`, are embedded below next to the helpers they use.
-/

set_option autoImplicit false

namespace Utils

/-- A Python string: a finite sequence of characters. -/
abbrev Str := List Char

/-- Python `s.split(sep)` for a one-character separator `sep`: splits `s` at
every occurrence of `sep`, keeping empty segments, so the result always has
one more segment than there are separators (never empty). -/
def splitOnChar (sep : Char) : Str → List Str
  | [] => [[]]
  | c :: rest =>
    if c = sep then
      [] :: splitOnChar sep rest
    else
      match splitOnChar sep rest with
      | [] => [[c]]
      | g :: gs => (c :: g) :: gs

/-- Python `s.startswith(p)`. -/
def strStartsWith (s p : Str) : Bool :=
  List.isPrefixOf p s

/- Module-level constants of utils.py.  Note that the names `PRT` and `PUNC`
are bound to the strings "PART" and "PUNCT" respectively. -/

def NOUN : Str := "NOUN".toList
def VERB : Str := "VERB".toList
def ADJ : Str := "ADJ".toList
def ADV : Str := "ADV".toList
def PRON : Str := "PRON".toList
def DET : Str := "DET".toList
def PREP : Str := "PREP".toList
def ADP : Str := "ADP".toList
def NUM : Str := "NUM".toList
def CONJ : Str := "CONJ".toList
def INTJ : Str := "INTJ".toList
def PRT : Str := "PART".toList
def PUNC : Str := "PUNCT".toList
def X : Str := "X".toList
def PROPN : Str := "PROPN".toList

/-- Embedding of `penntreebank2universal` from utils.py: first the compound
rule for tags starting with "NNP-" or "NNPS-" (Python
`"%s-%s" % (NOUN, tag.split("-")[-1])`), then the exact-membership table
lookups in source order, then the fallback `X`. -/
def penntreebank2universal (tag : Str) : Str :=
  if strStartsWith tag "NNP-".toList || strStartsWith tag "NNPS-".toList then
    NOUN ++ '-' :: (splitOnChar '-' tag).getLastD []
  else if tag ∈ ["NN".toList, "NNS".toList, "NP".toList] then
    NOUN
  else if tag ∈ ["NNP".toList, "NNPS".toList] then
    PROPN
  else if tag ∈ ["MD".toList, "VB".toList, "VBD".toList, "VBG".toList,
      "VBN".toList, "VBP".toList, "VBZ".toList] then
    VERB
  else if tag ∈ ["JJ".toList, "JJR".toList, "JJS".toList] then
    ADJ
  else if tag ∈ ["RB".toList, "RBR".toList, "RBS".toList, "WRB".toList] then
    ADV
  else if tag ∈ ["PRP".toList, "PRP$".toList, "WP".toList, "WP$".toList] then
    PRON
  else if tag ∈ ["DT".toList, "PDT".toList, "WDT".toList, "EX".toList] then
    DET
  else if tag ∈ ["IN".toList] then
    PREP
  else if tag ∈ ["CD".toList] then
    NUM
  else if tag ∈ ["CC".toList] then
    CONJ
  else if tag ∈ ["UH".toList] then
    INTJ
  else if tag ∈ ["POS".toList, "RP".toList, "TO".toList] then
    PRT
  else if tag ∈ ["SYM".toList, "LS".toList, ".".toList, "!".toList,
      "?".toList, ",".toList, ":".toList, "(".toList, ")".toList,
      "\"".toList, "#".toList, "$".toList] then
    PUNC
  else
    X

/-- All tags appearing in the exact-membership tables of
`penntreebank2universal`. -/
def tableTags : List Str :=
  ["NN".toList, "NNS".toList, "NP".toList, "NNP".toList, "NNPS".toList,
   "MD".toList, "VB".toList, "VBD".toList, "VBG".toList, "VBN".toList,
   "VBP".toList, "VBZ".toList, "JJ".toList, "JJR".toList, "JJS".toList,
   "RB".toList, "RBR".toList, "RBS".toList, "WRB".toList, "PRP".toList,
   "PRP$".toList, "WP".toList, "WP$".toList, "DT".toList, "PDT".toList,
   "WDT".toList, "EX".toList, "IN".toList, "CD".toList, "CC".toList,
   "UH".toList, "POS".toList, "RP".toList, "TO".toList, "SYM".toList,
   "LS".toList, ".".toList, "!".toList, "?".toList, ",".toList,
   ":".toList, "(".toList, ")".toList, "\"".toList, "#".toList,
   "$".toList]

/-! ### tag_all

In utils.py, `tag_all(docs, lfs)` runs `for doc in docs: for lf in lfs:
doc = lf(doc)` and then `return docs`.  The inner assignment rebinds the
local variable `doc` only; the list `docs` and its cells are never written.
Two embeddings are given: a pure one, in which labeling functions are value
transforms, and an exception one, in which a labeling function may fail. -/

/-- The value held by the Python local `doc` after the inner loop: the
labeling functions folded over the document in list order. -/
def applyLfs {α : Type} (lfs : List (α → α)) (doc : α) : α :=
  lfs.foldl (fun doc lf => lf doc) doc

/-- Pure-value embedding of `tag_all`: the inner loop computes
`applyLfs lfs doc` for each document and drops it, and the original list
`docs` is returned. -/
def tag_all {α : Type} (docs : List α) (lfs : List (α → α)) : List α :=
  let _locals := docs.map (applyLfs lfs)
  docs

/-- The behaviour the spec describes for `tag_all`: every labeling function
applied to every document, in list order, function-by-function per document,
returning the transformed sequence.

Modelled from the spec: the spec words are given their own definition here
so that the source embedding `tag_all` can be compared against it. -/
def tag_all_spec {α : Type} (docs : List α) (lfs : List (α → α)) : List α :=
  docs.map (applyLfs lfs)

/-- The inner loop of `tag_all` when labeling functions may fail: each call
either yields the next value of the local `doc` or raises, and a raise
aborts the remaining functions for this document. -/
def applyLfsE {α ε : Type} (lfs : List (α → Except ε α)) (doc : α) :
    Except ε α :=
  match lfs with
  | [] => .ok doc
  | lf :: rest =>
    match lf doc with
    | .ok d => applyLfsE rest d
    | .error e => .error e

/-- The outer loop of `tag_all` under the exception embedding: documents are
processed in order and a raise aborts the remaining documents. -/
def runDocs {α ε : Type} (docs : List α) (lfs : List (α → Except ε α)) :
    Except ε Unit :=
  match docs with
  | [] => .ok ()
  | d :: rest =>
    match applyLfsE lfs d with
    | .ok _ => runDocs rest lfs
    | .error e => .error e

/-- Exception embedding of `tag_all`: run the two loops; if no call raises,
return the original list `docs`, otherwise propagate the error unchanged. -/
def tag_all_exc {α ε : Type} (docs : List α) (lfs : List (α → Except ε α)) :
    Except ε (List α) :=
  match runDocs docs lfs with
  | .ok _ => .ok docs
  | .error e => .error e

/-! ### load_data_split

A spacy token is modelled by its coarse tag `tok.pos_`; its index `tok.i`
is its position in the document.  A span records its start token, end token
and label.  A document is its token list together with its entity spans
`doc.ents`. -/

/-- A spacy token, reduced to the one field utils.py reads: `tok.pos_`. -/
structure Token where
  pos : String
deriving DecidableEq

/-- A spacy span `Span(doc, start, stop, label)`. -/
structure Span where
  start : Nat
  stop : Nat
  label : String
deriving DecidableEq

/-- A spacy document: tokens in order, plus the entity spans `doc.ents`. -/
structure Doc where
  tokens : List Token
  ents : List Span
deriving DecidableEq

/-- The `ents` list built by the gold-label loop of `load_data_split`,
started at token index `i`: one span `Span(doc, tok.i, tok.i + 1, tok.pos_)`
per token whose tag is in `all_labels`, in token order. -/
def goldEntsFrom (all_labels : List String) (i : Nat) :
    List Token → List Span
  | [] => []
  | t :: ts =>
    if t.pos ∈ all_labels then
      ⟨i, i + 1, t.pos⟩ :: goldEntsFrom all_labels (i + 1) ts
    else
      goldEntsFrom all_labels (i + 1) ts

/-- The `ents` list built for a whole document (token indices start at 0). -/
def goldEnts (all_labels : List String) (toks : List Token) : List Span :=
  goldEntsFrom all_labels 0 toks

/-- The `tok_pos` list built by the same loop: the tag of each token when it
is in `all_labels`, and the fallback "X" otherwise. -/
def tok_pos (all_labels : List String) (toks : List Token) : List String :=
  toks.map (fun t => if t.pos ∈ all_labels then t.pos else "X")

/-- The body of the gold-label loop for one document: `doc.set_ents(ents)`
replaces the entity spans of the document by the newly built list. -/
def setGold (all_labels : List String) (doc : Doc) : Doc :=
  ⟨doc.tokens, goldEnts all_labels doc.tokens⟩

/-- Python `data[:m]` for an integer `m`, which may be negative: a negative
bound counts from the end of the list and an out-of-range bound clamps. -/
def pySliceTake {α : Type} (m : Int) (l : List α) : List α :=
  l.take (if 0 ≤ m then m.toNat else ((l.length : Int) + m).toNat)

/-- Embedding of `load_data_split` from utils.py.  The corpus read
`list(reader(nlp))` is the input `data`; `if isinstance(subset, int):
data = data[:subset]` truncates; `[doc.reference.copy() for doc in data]`
copies each document (the identity under value semantics); the final loop
overwrites each document entity list with the gold spans. -/
def load_data_split (data : List Doc) (all_labels : List String)
    (subset : Option Int) : List Doc :=
  let data2 :=
    match subset with
    | some m => pySliceTake m data
    | none => data
  let docs := data2.map (fun doc => ⟨doc.tokens, doc.ents⟩)
  docs.map (setGold all_labels)

/-! ### Lemmas about splitOnChar -/

theorem splitOnChar_ne_nil (sep : Char) (s : Str) : splitOnChar sep s ≠ [] := by
  induction s with
  | nil => simp [splitOnChar]
  | cons c rest ih =>
    simp only [splitOnChar]
    split
    · simp
    · cases h : splitOnChar sep rest with
      | nil => simp
      | cons g gs => simp

theorem splitOnChar_eq_of_not_mem (sep : Char) (s : Str) (h : sep ∉ s) :
    splitOnChar sep s = [s] := by
  induction s with
  | nil => rfl
  | cons c rest ih =>
    simp only [List.mem_cons, not_or] at h
    simp only [splitOnChar, ih h.2]
    rw [if_neg (fun hc => h.1 hc.symm)]

theorem getLastD_eq_of_ne_nil {α : Type} {l : List α} (h : l ≠ [])
    (d₁ d₂ : α) : l.getLastD d₁ = l.getLastD d₂ := by
  cases l with
  | nil => exact absurd rfl h
  | cons a t => rw [List.getLastD_cons, List.getLastD_cons]

theorem two_le_length_splitOnChar (sep : Char) (s : Str) (h : sep ∈ s) :
    2 ≤ (splitOnChar sep s).length := by
  induction s with
  | nil => simp at h
  | cons c rest ih =>
    simp only [splitOnChar]
    split
    · have h1 := splitOnChar_ne_nil sep rest
      have h2 : 1 ≤ (splitOnChar sep rest).length :=
        Nat.one_le_iff_ne_zero.mpr (by simpa using h1)
      simpa using h2
    · rename_i hc
      have hmem : sep ∈ rest := by
        rcases List.mem_cons.mp h with h' | h'
        · exact absurd h'.symm hc
        · exact h'
      cases hsp : splitOnChar sep rest with
      | nil => exact absurd hsp (splitOnChar_ne_nil sep rest)
      | cons g gs =>
        have := ih hmem
        rw [hsp] at this
        simpa using this

theorem splitOnChar_getLastD_append (sep : Char) (a b : Str) :
    (splitOnChar sep (a ++ sep :: b)).getLastD [] =
    (splitOnChar sep b).getLastD [] := by
  induction a with
  | nil =>
    have hsp : splitOnChar sep ([] ++ sep :: b) = [] :: splitOnChar sep b := by
      simp [splitOnChar]
    rw [hsp, List.getLastD_cons]
  | cons c a' ih =>
    by_cases hc : c = sep
    · have hsp : splitOnChar sep ((c :: a') ++ sep :: b) =
          [] :: splitOnChar sep (a' ++ sep :: b) := by
        subst hc
        simp [splitOnChar]
      rw [hsp, List.getLastD_cons, ← ih]
    · simp only [List.cons_append, splitOnChar, if_neg hc]
      cases hsp : splitOnChar sep (a' ++ sep :: b) with
      | nil => exact absurd hsp (splitOnChar_ne_nil sep (a' ++ sep :: b))
      | cons g gs =>
        have hlen : 2 ≤ (splitOnChar sep (a' ++ sep :: b)).length :=
          two_le_length_splitOnChar sep _ (by simp)
        rw [hsp] at hlen
        have hgs : gs ≠ [] := by
          cases gs with
          | nil => simp at hlen
          | cons _ _ => simp
        rw [← ih, hsp]
        cases gs with
        | nil => exact absurd rfl hgs
        | cons g' gs' => simp [List.getLastD_cons]

/-! ### C1: the exact-membership table -/

/-- C1 counterexample: the code maps the PRT class to the string "PART"
(the module constant named PRT is bound to "PART") and the punctuation
class to "PUNCT", so the mapper never returns the literal strings "PRT"
or "PUNC" that the claim documents. -/
theorem c1_counterexample :
    penntreebank2universal "TO".toList ≠ "PRT".toList ∧
    penntreebank2universal ",".toList ≠ "PUNC".toList ∧
    penntreebank2universal "TO".toList = "PART".toList ∧
    penntreebank2universal ",".toList = "PUNCT".toList := by
  decide

/-- C1 (corrected): every fine-grained tag in the category tables maps to
the coarse category the table assigns, where the particle class returns
the string "PART" and the punctuation class returns the string "PUNCT"
(the values of the module constants named PRT and PUNC); all other classes
return the literal category names the claim documents. -/
theorem c1_tag_table :
    (∀ t ∈ ["NN", "NNS", "NP"], penntreebank2universal t.toList = "NOUN".toList) ∧
    (∀ t ∈ ["NNP", "NNPS"], penntreebank2universal t.toList = "PROPN".toList) ∧
    (∀ t ∈ ["MD", "VB", "VBD", "VBG", "VBN", "VBP", "VBZ"],
      penntreebank2universal t.toList = "VERB".toList) ∧
    (∀ t ∈ ["JJ", "JJR", "JJS"], penntreebank2universal t.toList = "ADJ".toList) ∧
    (∀ t ∈ ["RB", "RBR", "RBS", "WRB"], penntreebank2universal t.toList = "ADV".toList) ∧
    (∀ t ∈ ["PRP", "PRP$", "WP", "WP$"], penntreebank2universal t.toList = "PRON".toList) ∧
    (∀ t ∈ ["DT", "PDT", "WDT", "EX"], penntreebank2universal t.toList = "DET".toList) ∧
    penntreebank2universal "IN".toList = "PREP".toList ∧
    penntreebank2universal "CD".toList = "NUM".toList ∧
    penntreebank2universal "CC".toList = "CONJ".toList ∧
    penntreebank2universal "UH".toList = "INTJ".toList ∧
    (∀ t ∈ ["POS", "RP", "TO"], penntreebank2universal t.toList = "PART".toList) ∧
    (∀ t ∈ ["SYM", "LS", ".", "!", "?", ",", ":", "(", ")", "\"", "#", "$"],
      penntreebank2universal t.toList = "PUNCT".toList) := by
  decide

/-- Helper: on any input of the form `a ++ '-' :: b` whose last segment `b`
is hyphen-free, the compound branch of the mapper returns "NOUN-" ++ b. -/
theorem map_compound (a b : Str) (hb : '-' ∉ b)
    (h : (strStartsWith (a ++ '-' :: b) "NNP-".toList ||
          strStartsWith (a ++ '-' :: b) "NNPS-".toList) = true) :
    penntreebank2universal (a ++ '-' :: b) = "NOUN-".toList ++ b := by
  simp only [penntreebank2universal, h, if_true, if_pos]
  rw [splitOnChar_getLastD_append, splitOnChar_eq_of_not_mem '-' b hb,
    List.getLastD_cons]
  simp [NOUN]

/-! ### C2: the compound rule and its suffix -/

/-- C2 counterexample: for the suffix "A-B", which itself contains a hyphen,
the mapper keeps only the segment after the last hyphen of the whole input,
returning "NOUN-B" rather than "NOUN-A-B". -/
theorem c2_counterexample :
    penntreebank2universal "NNP-A-B".toList ≠ "NOUN-A-B".toList ∧
    penntreebank2universal "NNP-A-B".toList = "NOUN-B".toList := by
  decide

/-- C2 (corrected): for every non-empty suffix that contains no hyphen, the
mapper sends "NNP-" ++ s and "NNPS-" ++ s to "NOUN-" ++ s with the suffix
preserved verbatim, this rule taking priority over the table lookups; a
suffix containing a hyphen keeps only the part after its last hyphen. -/
theorem c2_compound_suffix (s : Str) (_hne : s ≠ []) (hs : '-' ∉ s) :
    penntreebank2universal ("NNP-".toList ++ s) = "NOUN-".toList ++ s ∧
    penntreebank2universal ("NNPS-".toList ++ s) = "NOUN-".toList ++ s := by
  have e1 : "NNP-".toList ++ s = "NNP".toList ++ '-' :: s := rfl
  have e2 : "NNPS-".toList ++ s = "NNPS".toList ++ '-' :: s := rfl
  constructor
  · rw [e1]
    refine map_compound "NNP".toList s hs ?_
    rw [Bool.or_eq_true]
    left
    simp [strStartsWith, List.isPrefixOf]
  · rw [e2]
    refine map_compound "NNPS".toList s hs ?_
    rw [Bool.or_eq_true]
    right
    simp [strStartsWith, List.isPrefixOf]

/-- C2 witness: the corrected compound rule evaluated at the concrete
suffix "LOC". -/
theorem c2_witness :
    "LOC".toList ≠ ([] : Str) ∧ '-' ∉ "LOC".toList ∧
    penntreebank2universal ("NNP-".toList ++ "LOC".toList) =
      "NOUN-".toList ++ "LOC".toList :=
  ⟨by decide, by decide,
    (c2_compound_suffix "LOC".toList (by decide) (by decide)).1⟩

/-! ### C8: totality and the fallback -/

/-- C8 (confirmed): the mapper is a total function of the tag string alone;
on every input that does not start with "NNP-" or "NNPS-" and belongs to no
category table it returns the fallback "X". -/
theorem not_mem_of_sub {tag : Str} {l : List Str} (h3 : tag ∉ tableTags)
    (hsub : ∀ x ∈ l, x ∈ tableTags) : tag ∉ l :=
  fun hm => h3 (hsub tag hm)

theorem c8_total_fallback (tag : Str)
    (h1 : strStartsWith tag "NNP-".toList = false)
    (h2 : strStartsWith tag "NNPS-".toList = false)
    (h3 : tag ∉ tableTags) :
    penntreebank2universal tag = X := by
  have m1 : tag ∉ ["NN".toList, "NNS".toList, "NP".toList] :=
    not_mem_of_sub h3 (by decide)
  have m2 : tag ∉ ["NNP".toList, "NNPS".toList] :=
    not_mem_of_sub h3 (by decide)
  have m3 : tag ∉ ["MD".toList, "VB".toList, "VBD".toList, "VBG".toList,
      "VBN".toList, "VBP".toList, "VBZ".toList] :=
    not_mem_of_sub h3 (by decide)
  have m4 : tag ∉ ["JJ".toList, "JJR".toList, "JJS".toList] :=
    not_mem_of_sub h3 (by decide)
  have m5 : tag ∉ ["RB".toList, "RBR".toList, "RBS".toList, "WRB".toList] :=
    not_mem_of_sub h3 (by decide)
  have m6 : tag ∉ ["PRP".toList, "PRP$".toList, "WP".toList, "WP$".toList] :=
    not_mem_of_sub h3 (by decide)
  have m7 : tag ∉ ["DT".toList, "PDT".toList, "WDT".toList, "EX".toList] :=
    not_mem_of_sub h3 (by decide)
  have m8 : tag ∉ ["IN".toList] := not_mem_of_sub h3 (by decide)
  have m9 : tag ∉ ["CD".toList] := not_mem_of_sub h3 (by decide)
  have m10 : tag ∉ ["CC".toList] := not_mem_of_sub h3 (by decide)
  have m11 : tag ∉ ["UH".toList] := not_mem_of_sub h3 (by decide)
  have m12 : tag ∉ ["POS".toList, "RP".toList, "TO".toList] :=
    not_mem_of_sub h3 (by decide)
  have m13 : tag ∉ ["SYM".toList, "LS".toList, ".".toList, "!".toList,
      "?".toList, ",".toList, ":".toList, "(".toList, ")".toList,
      "\"".toList, "#".toList, "$".toList] :=
    not_mem_of_sub h3 (by decide)
  unfold penntreebank2universal
  rw [h1, h2]
  rw [if_neg (by decide : ¬ ((false || false) = true))]
  simp only [if_neg m1, if_neg m2, if_neg m3, if_neg m4, if_neg m5,
    if_neg m6, if_neg m7, if_neg m8, if_neg m9, if_neg m10, if_neg m11,
    if_neg m12, if_neg m13]

/-- C8 witness: the fallback evaluated at the unrecognized tag "XYZ". -/
theorem c8_witness :
    strStartsWith "XYZ".toList "NNP-".toList = false ∧
    strStartsWith "XYZ".toList "NNPS-".toList = false ∧
    "XYZ".toList ∉ tableTags ∧
    penntreebank2universal "XYZ".toList = X :=
  ⟨by decide, by decide, by decide,
    c8_total_fallback "XYZ".toList (by decide) (by decide) (by decide)⟩

/-! ### C10: the compound rule with an empty suffix -/

/-- C10 (confirmed): on the exact inputs "NNP-" and "NNPS-" the mapper
returns "NOUN-" with an empty suffix, not "PROPN" and not "X"; and the
compound branch fires on every string starting with "NNP-" or "NNPS-",
keeping only the segment after the last hyphen of the input. -/
theorem c10_empty_suffix :
    penntreebank2universal "NNP-".toList = "NOUN-".toList ∧
    penntreebank2universal "NNPS-".toList = "NOUN-".toList ∧
    penntreebank2universal "NNP-".toList ≠ "PROPN".toList ∧
    penntreebank2universal "NNPS-".toList ≠ "PROPN".toList ∧
    penntreebank2universal "NNP-".toList ≠ "X".toList ∧
    penntreebank2universal "NNPS-".toList ≠ "X".toList ∧
    (∀ a b : Str, '-' ∉ b →
      (strStartsWith (a ++ '-' :: b) "NNP-".toList ||
       strStartsWith (a ++ '-' :: b) "NNPS-".toList) = true →
      penntreebank2universal (a ++ '-' :: b) = "NOUN-".toList ++ b) := by
  refine ⟨by decide, by decide, by decide, by decide, by decide, by decide,
    ?_⟩
  intro a b hb h
  exact map_compound a b hb h

/-- C10 witness: the general compound rule evaluated on the concrete input
"NNP-Q-R", whose segment after the last hyphen is "R". -/
theorem c10_witness :
    penntreebank2universal ("NNP-Q".toList ++ '-' :: "R".toList) =
      "NOUN-".toList ++ "R".toList :=
  c10_empty_suffix.2.2.2.2.2.2 "NNP-Q".toList "R".toList (by decide)
    (by decide)

/-! ### C3 and C4: what tag_all returns -/

/-- C4 (confirmed): `tag_all` returns the very document sequence it was
given; under value semantics, where a labeling function returns a fresh
document without mutating its argument, the returned values are bound to a
local variable and discarded, so the labeling functions have no effect on
the result. -/
theorem c4_tag_all_returns_input {α : Type} (docs : List α)
    (lfs : List (α → α)) : tag_all docs lfs = docs := rfl

/-- C3 counterexample: with the pure labeling functions f = (+1) and
g = (*2) on the one-document sequence [0], `tag_all` returns [0], not the
sequence [2] obtained by mapping g after f over the documents. -/
theorem c3_counterexample :
    tag_all [0] [fun n => n + 1, fun n => n * 2] ≠
      [0].map ((fun n => n * 2) ∘ (fun n => n + 1)) ∧
    tag_all [0] [fun n => n + 1, fun n => n * 2] ≠
      tag_all_spec [0] [fun n => n + 1, fun n => n * 2] := by
  decide

/-- C3 (corrected): `tag_all` with an empty function list returns the
documents unchanged, agreeing with the spec behaviour; with [f, g] it calls
f then g per document but discards the returned values, so it again returns
the original sequence, which equals the sequence mapped through g after f
only when the labeling functions act by mutating their argument in place
rather than by returning fresh values. -/
theorem c3_amended {α : Type} (docs : List α) (f g : α → α) :
    tag_all docs [] = docs ∧
    tag_all docs [] = tag_all_spec docs [] ∧
    tag_all docs [f, g] = docs := by
  refine ⟨rfl, ?_, rfl⟩
  simp only [tag_all, tag_all_spec]
  have hid : applyLfs ([] : List (α → α)) = fun d => d := rfl
  rw [hid]
  simp

/-! ### C9: failure propagation in tag_all -/

theorem applyLfsE_append {α ε : Type} (l1 l2 : List (α → Except ε α))
    (x : α) :
    applyLfsE (l1 ++ l2) x =
      match applyLfsE l1 x with
      | .ok y => applyLfsE l2 y
      | .error e => .error e := by
  induction l1 generalizing x with
  | nil => simp [applyLfsE]
  | cons lf rest ih =>
    simp only [List.cons_append, applyLfsE]
    cases lf x with
    | ok y => exact ih y
    | error e => rfl

/-- C9 (confirmed): if, with every earlier document succeeding, a labeling
function raises on some document, then `tag_all` propagates exactly that
error to the caller; the conclusion holds for every list of remaining
documents and every list of remaining labeling functions, so neither is
processed, and the error is not caught, wrapped, or retried. -/
theorem c9_error_propagation {α ε : Type} (pre post : List α) (d d' : α)
    (e : ε) (lfs1 lfs2 : List (α → Except ε α)) (lf : α → Except ε α)
    (hpre : ∀ p ∈ pre, ∃ r, applyLfsE (lfs1 ++ lf :: lfs2) p = Except.ok r)
    (hfold : applyLfsE lfs1 d = Except.ok d')
    (hfail : lf d' = Except.error e) :
    tag_all_exc (pre ++ d :: post) (lfs1 ++ lf :: lfs2) =
      Except.error e := by
  have hd : applyLfsE (lfs1 ++ lf :: lfs2) d = Except.error e := by
    rw [applyLfsE_append, hfold]
    simp [applyLfsE, hfail]
  have hrun : runDocs (pre ++ d :: post) (lfs1 ++ lf :: lfs2) =
      Except.error e := by
    induction pre with
    | nil =>
      simp only [List.nil_append, runDocs, hd]
    | cons p rest ih =>
      obtain ⟨r, hr⟩ := hpre p (List.mem_cons_self p rest)
      simp only [List.cons_append, runDocs, hr]
      exact ih (fun q hq => hpre q (List.mem_cons_of_mem p hq))
  simp [tag_all_exc, hrun]

/-- C9 witness: one earlier document succeeds, the labeling function in the
middle of the list raises error 7 on document 1, and `tag_all` returns
exactly that error. -/
theorem c9_witness :
    tag_all_exc ([0] ++ 1 :: [5])
      (([] : List (Nat → Except Nat Nat)) ++
        (fun n => if n = 1 then Except.error 7 else Except.ok n) ::
        [fun n => Except.ok n]) = Except.error 7 :=
  c9_error_propagation [0] [5] 1 1 7 [] [fun n => Except.ok n]
    (fun n => if n = 1 then Except.error 7 else Except.ok n)
    (by
      intro p hp
      simp only [List.mem_singleton] at hp
      subst hp
      exact ⟨0, rfl⟩)
    rfl rfl

/-! ### Lemmas about the gold-label loop -/

theorem mem_goldEntsFrom {labels : List String} {s : Span} :
    ∀ (i : Nat) (ts : List Token),
    (s ∈ goldEntsFrom labels i ts ↔
      ∃ j, ∃ h : j < ts.length,
        (ts.get ⟨j, h⟩).pos ∈ labels ∧
        s = ⟨i + j, i + j + 1, (ts.get ⟨j, h⟩).pos⟩) := by
  intro i ts
  induction ts generalizing i with
  | nil => simp [goldEntsFrom]
  | cons t ts ih =>
    simp only [goldEntsFrom]
    by_cases hp : t.pos ∈ labels
    · rw [if_pos hp]
      constructor
      · intro hm
        rcases List.mem_cons.mp hm with heq | hm'
        · refine ⟨0, Nat.succ_pos _, by simpa using hp, ?_⟩
          simpa using heq
        · obtain ⟨j, hj, hl, hs⟩ := (ih (i + 1)).mp hm'
          refine ⟨j + 1, Nat.succ_lt_succ hj, by simpa using hl, ?_⟩
          rw [hs]
          have harith : i + 1 + j = i + (j + 1) := by omega
          simp [harith]
      · rintro ⟨j, hj, hl, hs⟩
        cases j with
        | zero =>
          apply List.mem_cons.mpr
          left
          simpa using hs
        | succ j' =>
          apply List.mem_cons.mpr
          right
          apply (ih (i + 1)).mpr
          refine ⟨j', Nat.lt_of_succ_lt_succ hj, by simpa using hl, ?_⟩
          rw [hs]
          have harith : i + 1 + j' = i + (j' + 1) := by omega
          simp [harith]
    · rw [if_neg hp]
      rw [ih (i + 1)]
      constructor
      · rintro ⟨j, hj, hl, hs⟩
        refine ⟨j + 1, Nat.succ_lt_succ hj, by simpa using hl, ?_⟩
        rw [hs]
        have harith : i + 1 + j = i + (j + 1) := by omega
        simp [harith]
      · rintro ⟨j, hj, hl, hs⟩
        cases j with
        | zero => exact absurd (by simpa using hl) hp
        | succ j' =>
          refine ⟨j', Nat.lt_of_succ_lt_succ hj, by simpa using hl, ?_⟩
          rw [hs]
          have harith : i + 1 + j' = i + (j' + 1) := by omega
          simp [harith]

theorem start_of_mem_goldEntsFrom {labels : List String} {i : Nat}
    {ts : List Token} {s : Span} (h : s ∈ goldEntsFrom labels i ts) :
    i ≤ s.start := by
  obtain ⟨j, hj, hl, hs⟩ := (mem_goldEntsFrom i ts).mp h
  rw [hs]
  exact Nat.le_add_right i j

theorem nodup_goldEntsFrom (labels : List String) :
    ∀ (i : Nat) (ts : List Token), (goldEntsFrom labels i ts).Nodup := by
  intro i ts
  induction ts generalizing i with
  | nil => simp [goldEntsFrom]
  | cons t ts ih =>
    simp only [goldEntsFrom]
    split
    · refine List.nodup_cons.mpr ⟨?_, ih (i + 1)⟩
      intro hm
      have := start_of_mem_goldEntsFrom hm
      simp at this
    · exact ih (i + 1)

theorem length_goldEntsFrom (labels : List String) :
    ∀ (i : Nat) (ts : List Token),
    (goldEntsFrom labels i ts).length =
      (ts.filter (fun t => t.pos ∈ labels)).length := by
  intro i ts
  induction ts generalizing i with
  | nil => simp [goldEntsFrom]
  | cons t ts ih =>
    simp only [goldEntsFrom, List.filter_cons]
    by_cases hp : t.pos ∈ labels
    · simp [hp, ih (i + 1)]
    · simp [hp, ih (i + 1)]

/-- The entity spans of every document returned by `load_data_split` are
exactly the gold spans built from its own tokens. -/
theorem ents_of_mem_load {data : List Doc} {labels : List String}
    {subset : Option Int} {d : Doc}
    (hd : d ∈ load_data_split data labels subset) :
    d.ents = goldEnts labels d.tokens := by
  simp only [load_data_split, List.mem_map] at hd
  obtain ⟨b, _hb, rfl⟩ := hd
  rfl

theorem tok_pos_getD (labels : List String) (toks : List Token) (j : Nat)
    (h : j < toks.length) :
    (tok_pos labels toks).getD j "" =
      (if (toks.get ⟨j, h⟩).pos ∈ labels then (toks.get ⟨j, h⟩).pos
       else "X") := by
  have hlen : j < (tok_pos labels toks).length := by
    simpa [tok_pos] using h
  rw [List.getD_eq_getElem?_getD, List.getElem?_eq_getElem hlen]
  simp [tok_pos]

/-! ### C5: the gold spans of a loaded document -/

/-- C5 (confirmed): in every document returned by `load_data_split`, each
token whose tag is in the allow-list carries exactly one span, a
single-token span at its own position labeled with its own tag; tokens
outside the allow-list carry no span; every span is single-token, in range,
and labeled by its matching token; the pass overwrites any pre-existing
annotations; and the conceptual per-token label list assigns every token
exactly one label, its own tag or the fallback "X". -/
theorem c5_gold_spans (data : List Doc) (labels : List String)
    (subset : Option Int) (d : Doc)
    (hd : d ∈ load_data_split data labels subset) :
    (∀ j (h : j < d.tokens.length),
      ((d.tokens.get ⟨j, h⟩).pos ∈ labels →
        d.ents.count ⟨j, j + 1, (d.tokens.get ⟨j, h⟩).pos⟩ = 1 ∧
        ∀ s ∈ d.ents, s.start = j →
          s = ⟨j, j + 1, (d.tokens.get ⟨j, h⟩).pos⟩) ∧
      ((d.tokens.get ⟨j, h⟩).pos ∉ labels →
        ∀ s ∈ d.ents, s.start ≠ j)) ∧
    (∀ s ∈ d.ents, s.stop = s.start + 1 ∧
      ∃ h : s.start < d.tokens.length,
        s.label = (d.tokens.get ⟨s.start, h⟩).pos ∧
        (d.tokens.get ⟨s.start, h⟩).pos ∈ labels) ∧
    (∀ toks e1 e2, setGold labels ⟨toks, e1⟩ = setGold labels ⟨toks, e2⟩) ∧
    ((tok_pos labels d.tokens).length = d.tokens.length ∧
      ∀ j (h : j < d.tokens.length),
        (tok_pos labels d.tokens).getD j "" =
          if (d.tokens.get ⟨j, h⟩).pos ∈ labels
          then (d.tokens.get ⟨j, h⟩).pos else "X") := by
  have he : d.ents = goldEnts labels d.tokens := ents_of_mem_load hd
  have hmem : ∀ s : Span, s ∈ d.ents ↔
      ∃ j, ∃ h : j < d.tokens.length,
        (d.tokens.get ⟨j, h⟩).pos ∈ labels ∧
        s = ⟨j, j + 1, (d.tokens.get ⟨j, h⟩).pos⟩ := by
    intro s
    rw [he, goldEnts, mem_goldEntsFrom 0 d.tokens]
    simp [Nat.zero_add]
  refine ⟨?_, ?_, ?_, ?_⟩
  · intro j h
    constructor
    · intro hl
      constructor
      · apply List.count_eq_one_of_mem
        · rw [he]
          exact nodup_goldEntsFrom labels 0 d.tokens
        · exact (hmem _).mpr ⟨j, h, hl, rfl⟩
      · intro s hs hstart
        obtain ⟨j', h', hl', hseq⟩ := (hmem s).mp hs
        rw [hseq] at hstart ⊢
        simp only at hstart
        subst hstart
        rfl
    · intro hl s hs hstart
      obtain ⟨j', h', hl', hseq⟩ := (hmem s).mp hs
      rw [hseq] at hstart
      simp only at hstart
      subst hstart
      exact hl hl'
  · intro s hs
    obtain ⟨j, h, hl, hseq⟩ := (hmem s).mp hs
    subst hseq
    exact ⟨rfl, h, rfl, hl⟩
  · exact fun toks e1 e2 => rfl
  · refine ⟨by simp [tok_pos], ?_⟩
    intro j h
    exact tok_pos_getD labels d.tokens j h

/-- C5 witness: in the document loaded from one DET token followed by one
NOUN token with a stale pre-existing annotation, the DET token carries
exactly one span, the single-token span at position 0 labeled "DET". -/
theorem c5_witness :
    (⟨[⟨"DET"⟩, ⟨"NOUN"⟩], [⟨0, 1, "DET"⟩]⟩ : Doc).ents.count
      ⟨0, 1, "DET"⟩ = 1 :=
  (((c5_gold_spans [⟨[⟨"DET"⟩, ⟨"NOUN"⟩], [⟨5, 6, "JUNK"⟩]⟩] ["DET"] none
      ⟨[⟨"DET"⟩, ⟨"NOUN"⟩], [⟨0, 1, "DET"⟩]⟩ (by decide)).1 0
      (by decide)).1 (by decide)).1

/-! ### C6: how many spans a document gets -/

/-- C6 counterexample: a document whose two tokens both carry the tag
"DET", loaded with the allow-list containing just "DET": the allow-list
contains K = 1 distinct tag present among the tokens, yet the loader
produces 2 spans, one per matching token. -/
theorem c6_counterexample :
    ((load_data_split [⟨[⟨"DET"⟩, ⟨"DET"⟩], []⟩] ["DET"] none).headD
        ⟨[], []⟩).ents.length = 2 ∧
    ((([⟨"DET"⟩, ⟨"DET"⟩] : List Token).map Token.pos).filter
        (fun p => p ∈ (["DET"] : List String))).dedup.length = 1 := by
  constructor
  · decide
  · decide

/-- C6 (corrected): the loader produces exactly one span per token whose
tag is in the allow-list, so the span count of a document equals the number
of its matching tokens, not the number of distinct matching tags; an
allow-list matching none of the tokens yields zero spans and is not an
error. -/
theorem c6_span_count (data : List Doc) (labels : List String)
    (subset : Option Int) (d : Doc)
    (hd : d ∈ load_data_split data labels subset) :
    d.ents.length = (d.tokens.filter (fun t => t.pos ∈ labels)).length ∧
    ((∀ t ∈ d.tokens, t.pos ∉ labels) → d.ents.length = 0) := by
  have he := ents_of_mem_load hd
  constructor
  · rw [he, goldEnts, length_goldEntsFrom labels 0 d.tokens]
  · intro hnone
    rw [he, goldEnts, length_goldEntsFrom labels 0 d.tokens]
    apply List.length_eq_zero.mpr
    rw [List.filter_eq_nil_iff]
    intro t ht
    simpa using hnone t ht

/-- C6 witness: the corrected count evaluated on a concrete two-token
document with one matching token. -/
theorem c6_witness :
    (⟨[⟨"DET"⟩, ⟨"NOUN"⟩], [⟨0, 1, "DET"⟩]⟩ : Doc).ents.length =
      ((⟨[⟨"DET"⟩, ⟨"NOUN"⟩], [⟨0, 1, "DET"⟩]⟩ : Doc).tokens.filter
        (fun t => t.pos ∈ (["DET"] : List String))).length :=
  (c6_span_count [⟨[⟨"DET"⟩, ⟨"NOUN"⟩], [⟨9, 9, "OLD"⟩]⟩] ["DET"] none
    ⟨[⟨"DET"⟩, ⟨"NOUN"⟩], [⟨0, 1, "DET"⟩]⟩ (by decide)).1

/-! ### C7: truncation is a stable prefix -/

theorem load_data_split_some_eq (data : List Doc) (labels : List String)
    (m : Int) :
    load_data_split data labels (some m) =
      (pySliceTake m data).map (setGold labels) := by
  simp only [load_data_split, List.map_map]
  rfl

theorem load_data_split_none_eq (data : List Doc) (labels : List String) :
    load_data_split data labels none = data.map (setGold labels) := by
  simp only [load_data_split, List.map_map]
  rfl

theorem map_take_isPre {α β : Type} (f : α → β) (l : List α) (a b : Nat)
    (hab : a ≤ b) : (l.take a).map f <+: (l.take b).map f := by
  refine ⟨((l.take b).drop a).map f, ?_⟩
  rw [← List.map_append]
  congr 1
  have h1 : l.take a = (l.take b).take a := by
    rw [List.take_take, Nat.min_eq_left hab]
  rw [h1, List.take_append_drop]

/-- C7 counterexample: Python slicing accepts a negative bound, counting
from the end, so calling the loader on two documents with subset = -1
returns one document, which is neither at most -1 many documents nor a
prefix of the subset = 0 result (the empty list), refuting the claim for
arbitrary integers. -/
theorem c7_counterexample :
    ¬ (((load_data_split [⟨[⟨"A"⟩], []⟩, ⟨[⟨"B"⟩], []⟩] ["DET"]
        (some (-1))).length : Int) ≤ -1) ∧
    ¬ (load_data_split [⟨[⟨"A"⟩], []⟩, ⟨[⟨"B"⟩], []⟩] ["DET"]
        (some (-1)) <+:
       load_data_split [⟨[⟨"A"⟩], []⟩, ⟨[⟨"B"⟩], []⟩] ["DET"]
        (some 0)) := by
  constructor
  · decide
  · intro hp
    have h1 : (load_data_split [⟨[⟨"A"⟩], []⟩, ⟨[⟨"B"⟩], []⟩] ["DET"]
        (some (-1))).length = 1 := by decide
    have h2 : (load_data_split [⟨[⟨"A"⟩], []⟩, ⟨[⟨"B"⟩], []⟩] ["DET"]
        (some 0)).length = 0 := by decide
    have h3 := hp.length_le
    omega

/-- C7 (corrected): for every non-negative integer M, `load_data_split`
with subset = M returns at most M documents, they are a prefix of the
no-subset result in original order, and for non-negative M at most Mp the
subset = M result is a prefix of the subset = Mp result. -/
theorem c7_subset_monotone (data : List Doc) (labels : List String)
    (M Mp : Int) (h0 : 0 ≤ M) (hMM : M ≤ Mp) :
    ((load_data_split data labels (some M)).length : Int) ≤ M ∧
    load_data_split data labels (some M) <+:
      load_data_split data labels none ∧
    load_data_split data labels (some M) <+:
      load_data_split data labels (some Mp) := by
  have h0p : (0 : Int) ≤ Mp := le_trans h0 hMM
  rw [load_data_split_some_eq data labels M,
    load_data_split_some_eq data labels Mp,
    load_data_split_none_eq data labels]
  simp only [pySliceTake, if_pos h0, if_pos h0p]
  refine ⟨?_, ?_, ?_⟩
  · rw [List.length_map, List.length_take]
    have hmin : min M.toNat data.length ≤ M.toNat := Nat.min_le_left _ _
    have hM : (M.toNat : Int) = M := Int.toNat_of_nonneg h0
    omega
  · exact ⟨(data.drop M.toNat).map (setGold labels),
      by rw [← List.map_append, List.take_append_drop]⟩
  · exact map_take_isPre (setGold labels) data M.toNat Mp.toNat
      (Int.toNat_le_toNat hMM)

/-- C7 witness: the corrected prefix properties evaluated on three concrete
documents with subset bounds 1 and 2. -/
theorem c7_witness :
    ((load_data_split [⟨[⟨"A"⟩], []⟩, ⟨[⟨"B"⟩], []⟩, ⟨[⟨"C"⟩], []⟩]
        ["DET"] (some 1)).length : Int) ≤ 1 ∧
    load_data_split [⟨[⟨"A"⟩], []⟩, ⟨[⟨"B"⟩], []⟩, ⟨[⟨"C"⟩], []⟩]
        ["DET"] (some 1) <+:
      load_data_split [⟨[⟨"A"⟩], []⟩, ⟨[⟨"B"⟩], []⟩, ⟨[⟨"C"⟩], []⟩]
        ["DET"] none ∧
    load_data_split [⟨[⟨"A"⟩], []⟩, ⟨[⟨"B"⟩], []⟩, ⟨[⟨"C"⟩], []⟩]
        ["DET"] (some 1) <+:
      load_data_split [⟨[⟨"A"⟩], []⟩, ⟨[⟨"B"⟩], []⟩, ⟨[⟨"C"⟩], []⟩]
        ["DET"] (some 2) :=
  c7_subset_monotone [⟨[⟨"A"⟩], []⟩, ⟨[⟨"B"⟩], []⟩, ⟨[⟨"C"⟩], []⟩]
    ["DET"] 1 2 (by decide) (by decide)

example : penntreebank2universal "VBD".toList = "VERB".toList := by decide
example : penntreebank2universal "NNP-LOC".toList = "NOUN-LOC".toList := by decide
example : penntreebank2universal "XYZ".toList = "X".toList := by decide
example : penntreebank2universal ",".toList = "PUNCT".toList := by decide
example : penntreebank2universal "TO".toList = "PART".toList := by decide
example : penntreebank2universal "NNP-".toList = "NOUN-".toList := by decide
example : penntreebank2universal "NNP-A-B".toList = "NOUN-B".toList := by decide
example :
    load_data_split [⟨[⟨"DET"⟩, ⟨"NOUN"⟩, ⟨"DET"⟩], [⟨0, 3, "OLD"⟩]⟩]
      ["DET"] none =
    [⟨[⟨"DET"⟩, ⟨"NOUN"⟩, ⟨"DET"⟩], [⟨0, 1, "DET"⟩, ⟨2, 3, "DET"⟩]⟩] := by
  decide
example :
    load_data_split [⟨[⟨"A"⟩], []⟩, ⟨[⟨"B"⟩], []⟩] [] (some (-1)) =
    [⟨[⟨"A"⟩], []⟩] := by decide
example : tag_all [0, 1] [fun n => n + 1, fun n => n * 2] = [0, 1] := rfl
example : tag_all_spec [0, 1] [fun n => n + 1, fun n => n * 2] = [2, 4] := rfl

end Utils
